import Mathlib

/-!
Shallow embedding of `src/redis_idgen/redis_idgen.go` (package `redis_idgen`,
repository chaos-io/idgen).

The Go code talks to three external effects: the wall clock (`time.Now`), a
Redis client (`IncrBy` / `Expire`) and a randomness source (`crypto/rand`).
They are modelled by an explicit environment `Env σ` of state transformers
over an abstract state `σ`; the generator code itself is embedded as pure
state-passing functions.  Go `int64` arithmetic wraps modulo 2^64; in the one
place where overflow matters (the identifier packing expression) the final
value goes through `toInt64`, which reduces into the signed 64-bit range.
Go `/` and `%` on `int64` truncate toward zero, so they are embedded as
`Int.tdiv` / `Int.tmod`.
-/

/-- Go: `maxCounter = (1 << 8) - 1`. -/
def maxCounter : Int := 255

/-- The generator struct (Go `type generator struct`).  The Redis client
handle is replaced by the abstract environment; `serverIDs` and `namespace_`
(Go field `namespace`, a Lean keyword) are the data fields. -/
structure Generator where
  serverIDs : List Int
  namespace_ : String
deriving Repr, DecidableEq

/-- The external effects used by the generator, as state transformers over an
abstract world state `σ`:
* `timeMS` models `g.timeMS()` (a read of the wall clock in epoch millis);
* `incrBy` models `g.cli.IncrBy(ctx, key, num).Result()`;
* `expire` models `g.cli.Expire(ctx, key, counterKeyExpiration)` whose result
  and error are discarded by the Go code, so only the state effect remains;
* `randIndex n` models `rand.Int(rand.Reader, big.NewInt(n))` from
  `pickServerID`, returning an index below `n` (see `Env.LawfulRand`). -/
structure Env (σ : Type) where
  timeMS : σ → Int × σ
  incrBy : String → Int → σ → Except String (Int × σ)
  expire : String → σ → σ
  randIndex : Nat → σ → Except String (Nat × σ)

/-- The distinct error returns of the Go code, one constructor per
`return nil, err` site (`logs.NewErrorw` in `GenID` wraps the inner error,
modelled by `genIDFailed`). -/
inductive GenErr where
  | pickFailed (msg : String)
  | storeFailed (msg : String)
  | recycling (ms : Int)
  | secondsOverflow (seconds : Int)
  | serverIDOverflow (serverID : Int)
  | insufficient (ns : String) (expect : Int) (gotten : Nat) (lastMs : Int)
  | genIDFailed (inner : GenErr)
deriving Repr, DecidableEq

/-- Go `NewIDGenerator`: fails when the server-id pool is empty, otherwise
returns the generator (the `namespace` field is never assigned in the Go
source, so it keeps its zero value `""`). -/
def NewIDGenerator (serverIDs : List Int) : Except String Generator :=
  if serverIDs.isEmpty then .error "idgen must init with valid server ids"
  else .ok { serverIDs := serverIDs, namespace_ := "" }

/-- Signed 64-bit wraparound: interprets an integer modulo 2^64 as a
two's-complement `int64` value in `[-2^63, 2^63)`.
`9223372036854775808 = 2^63`, `18446744073709551616 = 2^64`. -/
def toInt64 (n : Int) : Int :=
  (n + 9223372036854775808) % 18446744073709551616 - 9223372036854775808

/-- Go line 106: `id := (seconds)<<32 + (millis)<<22 + i<<14 + serverID` on
`int64`.  Each `<<` is multiplication by a power of two and the whole
computation wraps modulo 2^64, which is what `toInt64` of the exact integer
sum computes.  `4294967296 = 2^32`, `4194304 = 2^22`, `16384 = 2^14`. -/
def mkID (seconds millis i serverID : Int) : Int :=
  toInt64 (seconds * 4294967296 + millis * 4194304 + i * 16384 + serverID)

/-- Go `counterKey`: `fmt.Sprintf("id_generator:%v:%v:%v", space, serverID, ms)`
(`%v` on an `int64` prints its decimal representation, as `toString` does). -/
def counterKey (space : String) (serverID : Int) (ms : Int) : String :=
  "id_generator:" ++ space ++ ":" ++ toString serverID ++ ":" ++ toString ms

/-- Go lines 60–63.  `lo.Ternary` is a plain function, so Go evaluates both
clock reads before choosing: `t1` is the read used for the comparison and
`t2` the read returned when the comparison holds.  Then `if ms <= lastMs`
bumps `ms` by one. -/
def nextMs (t1 t2 lastMs : Int) : Int :=
  let ms := if t1 > lastMs then t2 else lastMs
  if ms ≤ lastMs then ms + 1 else ms

/-- The two consecutive `g.timeMS()` reads of one loop iteration together
with the `nextMs` computation: returns the millisecond used for this bucket
attempt and the world state after the two reads. -/
def stepMs (env : Env σ) (lastMs : Int) (s : σ) : Int × σ :=
  let p1 := env.timeMS s
  let p2 := env.timeMS p1.2
  (nextMs p1.1 p2.1 lastMs, p2.2)

/-- Go line 97: `seconds&0xFFFFFFFF != seconds` (negated).  On a
two's-complement `int64`, `v & 0xFFFFFFFF` keeps the low 32 bits of the
representation, i.e. equals the nonnegative remainder `v mod 2^32`; the
guard accepts exactly `0 ≤ v < 2^32`.  `4294967296 = 2^32`. -/
def fits32 (v : Int) : Bool := v % 4294967296 == v

/-- Go line 101: `serverID&0x3FFF != serverID` (negated); `v & 0x3FFF` equals
`v mod 2^14` on two's-complement `int64`.  `16384 = 2^14`. -/
def fits14 (v : Int) : Bool := v % 16384 == v

/-- Go lines 105–108: the inner `for i := start; i < end; i++` loop, which
appends `mkID seconds millis i serverID` for each `i` in `[start, endv)`. -/
def idsFor (seconds millis serverID start endv : Int) : List Int :=
  (List.range (endv - start).toNat).map fun k : Nat => mkID seconds millis (start + (k : Int)) serverID

/-- Go `pickServerID`: draws `r` below `len(serverIDs)` from the randomness
source and returns `serverIDs[r]`.  `crypto/rand` guarantees `r` is in range
(`Env.LawfulRand`); the `getD` default `0` is unreachable for lawful
environments. -/
def pickServerID (env : Env σ) (g : Generator) (s : σ) : Except String (Int × σ) :=
  match env.randIndex g.serverIDs.length s with
  | .error e => .error e
  | .ok (r, s') => .ok (g.serverIDs.getD r 0, s')

/-- One iteration of the Go `for idx` loop body (lines 60–108): clock reads
and millisecond bump, `IncrBy`, optional `Expire`, the
saturation / recycling / bit-width checks, and the identifier emission.
Returns the updated `(leftNum, lastMs, ids, state)`. -/
def genStep (env : Env σ) (g : Generator) (serverID leftNum lastMs : Int)
    (ids : List Int) (s : σ) : Except GenErr (Int × Int × List Int × σ) :=
  let ms := (stepMs env lastMs s).1
  let s2 := (stepMs env lastMs s).2
  let redisKey := counterKey g.namespace_ serverID ms
  match env.incrBy redisKey leftNum s2 with
  | .error e => .error (.storeFailed e)
  | .ok (counter, s3) =>
    let start := counter - leftNum
    let s4 := if start = 0 then env.expire redisKey s3 else s3
    if start > maxCounter then
      .ok (leftNum, ms, ids, s4)
    else if counter < leftNum then
      .error (.recycling ms)
    else
      let endv := if counter > maxCounter then maxCounter + 1 else counter
      let leftNum' := if counter > maxCounter then counter - maxCounter - 1 else 0
      let seconds := ms.tdiv 1000
      let millis := ms.tmod 1000
      if fits32 seconds = false then .error (.secondsOverflow seconds)
      else if fits14 serverID = false then .error (.serverIDOverflow serverID)
      else .ok (leftNum', ms, ids ++ idsFor seconds millis serverID start endv, s4)

/-- The Go `for idx := int64(0); leftNum > 0 && idx < maxTimeAddrTimes; idx++`
loop, with `fuel = maxTimeAddrTimes - idx` as the structural measure. -/
def genLoop (env : Env σ) (g : Generator) (serverID : Int) :
    Nat → Int → Int → List Int → σ → Except GenErr (Int × Int × List Int × σ)
  | 0, leftNum, lastMs, ids, _s => .ok (leftNum, lastMs, ids, _s)
  | Nat.succ fuel, leftNum, lastMs, ids, s =>
    if leftNum > 0 then
      match genStep env g serverID leftNum lastMs ids s with
      | .error e => .error e
      | .ok (l', m', ids', s') => genLoop env g serverID fuel l' m' ids' s'
    else .ok (leftNum, lastMs, ids, s)

/-- Go `GenMultiIDs` (lines 48–116): pick a server id, run up to 8 bucket
attempts starting from `leftNum = counts`, `lastMs = 0`, `ids = []`, then the
final `len(ids) < counts || leftNum != 0` check.  This models the function
from the `pickServerID` call (line 54) onward: the preceding
`ids := make([]int64, 0, counts)` (line 53) is effect-free for `counts ≥ 0`
but panics at runtime for a negative capacity, a path modelled by the
`GenMultiIDsGo` wrapper below. -/
def GenMultiIDs (env : Env σ) (g : Generator) (counts : Int) (s : σ) :
    Except GenErr (List Int × σ) :=
  match pickServerID env g s with
  | .error e => .error (.pickFailed e)
  | .ok (serverID, s1) =>
    match genLoop env g serverID 8 counts 0 [] s1 with
    | .error e => .error e
    | .ok (leftNum, lastMs, ids, s2) =>
      if (ids.length : Int) < counts ∨ leftNum ≠ 0 then
        .error (.insufficient g.namespace_ counts ids.length lastMs)
      else .ok (ids, s2)

/-- The whole Go `GenMultiIDs`, slice allocation included.  Go line 53,
`ids := make([]int64, 0, counts)`, runs before the server-id pick, the loop
and the final check, and panics at runtime (`makeslice: cap out of range`)
when `counts` is negative; `none` models that panic — the call crashes and
returns neither identifiers nor an error value.  For a nonnegative capacity
the allocation always succeeds and the rest of the function is
`GenMultiIDs`. -/
def GenMultiIDsGo (env : Env σ) (g : Generator) (counts : Int) (s : σ) :
    Option (Except GenErr (List Int × σ)) :=
  if counts < 0 then none
  else some (GenMultiIDs env g counts s)

/-- Go `GenID` (lines 40–46): `GenMultiIDs` with `counts = 1`, wrapping any
error (`logs.NewErrorw`) and returning `ids[0]`.  On success with
`counts = 1` the list is provably nonempty (see `GenID_refines_GenMultiIDs`),
so `headD 0` models the in-bounds index. -/
def GenID (env : Env σ) (g : Generator) (s : σ) : Except GenErr (Int × σ) :=
  match GenMultiIDs env g 1 s with
  | .error e => .error (.genIDFailed e)
  | .ok (ids, s') => .ok (ids.headD 0, s')

/-! ### Decoding the packed bit fields of an identifier -/

/-- Unsigned 64-bit representation of a (possibly negative) `int64` value. -/
def toBits64 (id : Int) : Int := id % 18446744073709551616

/-- Bits 32–63 of the identifier: the `seconds` field. -/
def decodeSeconds (id : Int) : Int := toBits64 id / 4294967296

/-- Bits 22–31 of the identifier: the 10-bit `millis` field. -/
def decodeMillis (id : Int) : Int := toBits64 id / 4194304 % 1024

/-- Bits 14–21 of the identifier: the 8-bit `counter` field. -/
def decodeCounter (id : Int) : Int := toBits64 id / 16384 % 256

/-- Bits 0–13 of the identifier: the 14-bit `serverId` field. -/
def decodeServerID (id : Int) : Int := toBits64 id % 16384

/-- The epoch-millisecond reconstructed from the decoded fields. -/
def decodeMs (id : Int) : Int := decodeSeconds id * 1000 + decodeMillis id

/-! ### Environment hypotheses and instrumented environments -/

/-- Two consecutive wall-clock reads never go backwards.  This is the clock
sanity assumption implicit in the spec's `ms = max(currentEpochMillis, lastMs)`
formulation: the two reads of one `lo.Ternary` evaluation are adjacent, and a
monotone (possibly stalled) clock returns a second reading at least as large
as the first. -/
def Env.Monotone (env : Env σ) : Prop :=
  ∀ s : σ, (env.timeMS s).1 ≤ (env.timeMS (env.timeMS s).2).1

/-- `crypto/rand.Int(reader, max)` returns a value in `[0, max)`. -/
def Env.LawfulRand (env : Env σ) : Prop :=
  ∀ (n : Nat) (s : σ) (r : Nat) (s' : σ), env.randIndex n s = .ok (r, s') → r < n

/-- Instrumentation: an environment whose counter store rejects every
increment.  A run that finishes without a `storeFailed` error therefore made
no counter-store call. -/
def failIncr (env : Env σ) : Env σ :=
  { env with incrBy := fun _ _ _ => .error "store unavailable" }

/-- Instrumentation: pairs the state with a counter of successful
counter-store increments. -/
def countIncr (env : Env σ) : Env (σ × Nat) where
  timeMS := fun p => ((env.timeMS p.1).1, ((env.timeMS p.1).2, p.2))
  incrBy := fun key d p =>
    match env.incrBy key d p.1 with
    | .error e => .error e
    | .ok (c, s') => .ok (c, (s', p.2 + 1))
  expire := fun key p => (env.expire key p.1, p.2)
  randIndex := fun n p =>
    match env.randIndex n p.1 with
    | .error e => .error e
    | .ok (r, s') => .ok (r, (s', p.2))

/-! ### A concrete executable environment (simulated clock + in-memory store) -/

/-- First-match lookup in an association list, defaulting to `0` (a Redis
`INCRBY` on an absent key starts from 0). -/
def lookupD (l : List (String × Int)) (k : String) : Int :=
  match l with
  | [] => 0
  | (k', v) :: t => if k' = k then v else lookupD t k

/-- Simulated world: a frozen clock reading and an in-memory counter store. -/
structure SimSt where
  now : Int
  kvs : List (String × Int)
deriving Repr, DecidableEq

/-- Concrete environment: the clock always returns `now`, the store is an
association list updated by consing, expiry is a no-op, and the random index
is always `0` (failing when the pool is empty, as `crypto/rand` would on a
nonpositive bound). -/
def simEnv : Env SimSt where
  timeMS := fun s => (s.now, s)
  incrBy := fun key d s =>
    let c := lookupD s.kvs key + d
    .ok (c, { s with kvs := (key, c) :: s.kvs })
  expire := fun _ s => s
  randIndex := fun n s => if n = 0 then .error "empty pool" else .ok (0, s)

/-- A concrete generator over the pool `[7]` (namespace left at its Go zero
value `""`, as `NewIDGenerator` produces). -/
def gTest : Generator := { serverIDs := [7], namespace_ := "" }

/-- The spec's description of the bucket key: the three fields joined by
colons with no other components («`"<namespace>:<serverId>:<epochMillis>"`»).
Modelled from the spec's words for comparison with the source's
`counterKey`. -/
def specCounterKey (space : String) (serverID : Int) (ms : Int) : String :=
  space ++ ":" ++ toString serverID ++ ":" ++ toString ms

/-- What it means for an identifier to be well-formed for server id `sid`:
it is the packed encoding of some positive epoch-millisecond `ms` and a
counter `i` in `[0, 255]`, and extracting the four bit fields recovers
`seconds = ms / 1000` (truncated division), `millis = ms mod 1000` in
`[0, 999]`, the counter `i`, and `sid` itself. -/
def GoodID (sid a : Int) : Prop :=
  ∃ ms i : Int, 1 ≤ ms ∧ 0 ≤ i ∧ i ≤ 255 ∧
    a = mkID (ms.tdiv 1000) (ms.tmod 1000) i sid ∧
    decodeSeconds a = ms.tdiv 1000 ∧
    decodeMillis a = ms.tmod 1000 ∧ 0 ≤ decodeMillis a ∧ decodeMillis a ≤ 999 ∧
    decodeCounter a = i ∧
    decodeServerID a = sid ∧
    decodeMs a = ms

/-! ### Helper lemmas -/

theorem idsFor_length (seconds millis sid start endv : Int) :
    (idsFor seconds millis sid start endv).length = (endv - start).toNat := by
  unfold idsFor
  exact (List.length_map _ _).trans (List.length_range _)

theorem genStep_inv {σ : Type} (env : Env σ) (g : Generator) (sid leftNum lastMs : Int)
    (ids : List Int) (s : σ) (l' m' : Int) (ids' : List Int) (s' : σ)
    (hstep : genStep env g sid leftNum lastMs ids s = .ok (l', m', ids', s')) :
    m' = (stepMs env lastMs s).1 ∧
    ∃ counter s3,
      env.incrBy (counterKey g.namespace_ sid (stepMs env lastMs s).1) leftNum
          (stepMs env lastMs s).2 = .ok (counter, s3) ∧
      s' = (if counter - leftNum = 0 then
        env.expire (counterKey g.namespace_ sid (stepMs env lastMs s).1) s3 else s3) ∧
      ((counter - leftNum > maxCounter ∧ l' = leftNum ∧ ids' = ids) ∨
       (counter - leftNum ≤ maxCounter ∧ leftNum ≤ counter ∧
        fits32 ((stepMs env lastMs s).1.tdiv 1000) = true ∧ fits14 sid = true ∧
        l' = (if counter > maxCounter then counter - maxCounter - 1 else 0) ∧
        ids' = ids ++ idsFor ((stepMs env lastMs s).1.tdiv 1000)
          ((stepMs env lastMs s).1.tmod 1000) sid (counter - leftNum)
          (if counter > maxCounter then maxCounter + 1 else counter))) := by
  simp only [genStep] at hstep
  cases hincr : env.incrBy (counterKey g.namespace_ sid (stepMs env lastMs s).1) leftNum
      (stepMs env lastMs s).2 with
  | error e => rw [hincr] at hstep; exact absurd hstep (by simp)
  | ok p =>
    obtain ⟨counter, s3⟩ := p
    rw [hincr] at hstep
    simp only at hstep
    by_cases h1 : counter - leftNum > maxCounter
    · rw [if_pos h1] at hstep
      simp only [Except.ok.injEq, Prod.mk.injEq] at hstep
      obtain ⟨hl, hm, hi, hs⟩ := hstep
      exact ⟨hm.symm, counter, s3, rfl, hs.symm, Or.inl ⟨h1, hl.symm, hi.symm⟩⟩
    · rw [if_neg h1] at hstep
      by_cases h2 : counter < leftNum
      · rw [if_pos h2] at hstep; exact absurd hstep (by simp)
      · rw [if_neg h2] at hstep
        by_cases h3 : fits32 ((stepMs env lastMs s).1.tdiv 1000) = false
        · rw [if_pos h3] at hstep; exact absurd hstep (by simp)
        · rw [if_neg h3] at hstep
          by_cases h4 : fits14 sid = false
          · rw [if_pos h4] at hstep; exact absurd hstep (by simp)
          · rw [if_neg h4] at hstep
            simp only [Except.ok.injEq, Prod.mk.injEq] at hstep
            obtain ⟨hl, hm, hi, hs⟩ := hstep
            refine ⟨hm.symm, counter, s3, rfl, hs.symm, Or.inr ⟨by omega, by omega,
              by simp at h3; exact h3, by simp at h4; exact h4, hl.symm, hi.symm⟩⟩

theorem stepMs_lt {σ : Type} (env : Env σ) (hmono : env.Monotone) (lastMs : Int) (s : σ) :
    lastMs < (stepMs env lastMs s).1 := by
  have h := hmono s
  simp only [stepMs, nextMs]
  by_cases h1 : (env.timeMS s).1 > lastMs
  · simp only [if_pos h1]
    split <;> omega
  · simp only [if_neg h1]
    split <;> omega

theorem stepMs_forced {σ : Type} (env : Env σ) (lastMs : Int) (s : σ)
    (h : (env.timeMS s).1 ≤ lastMs) : (stepMs env lastMs s).1 = lastMs + 1 := by
  simp only [stepMs, nextMs]
  have h1 : ¬ ((env.timeMS s).1 > lastMs) := by omega
  simp only [if_neg h1]
  simp only [if_pos (le_refl lastMs)]

theorem fits32_iff (v : Int) : fits32 v = true ↔ 0 ≤ v ∧ v < 4294967296 := by
  unfold fits32
  rw [beq_iff_eq]
  omega

theorem fits14_iff (v : Int) : fits14 v = true ↔ 0 ≤ v ∧ v < 16384 := by
  unfold fits14
  rw [beq_iff_eq]
  omega

theorem decode_mkID (seconds millis i sid : Int)
    (hs1 : 0 ≤ seconds) (hs2 : seconds < 4294967296)
    (hm1 : 0 ≤ millis) (hm2 : millis < 1024)
    (hi1 : 0 ≤ i) (hi2 : i < 256)
    (hd1 : 0 ≤ sid) (hd2 : sid < 16384) :
    decodeSeconds (mkID seconds millis i sid) = seconds ∧
    decodeMillis (mkID seconds millis i sid) = millis ∧
    decodeCounter (mkID seconds millis i sid) = i ∧
    decodeServerID (mkID seconds millis i sid) = sid := by
  unfold decodeSeconds decodeMillis decodeCounter decodeServerID mkID toInt64 toBits64
  refine ⟨by omega, by omega, by omega, by omega⟩

theorem tdiv_emod_1000 (ms : Int) (h : 0 ≤ ms) :
    ms.tdiv 1000 = ms / 1000 ∧ ms.tmod 1000 = ms % 1000 :=
  ⟨Int.tdiv_eq_ediv h (by omega), Int.tmod_eq_emod h (by omega)⟩

/-- Every identifier emitted by the inner loop of a bucket attempt is a
well-formed identifier for the attempt's millisecond. -/
theorem idsFor_good (ms sid start endv : Int)
    (hms : 1 ≤ ms) (hsec : ms.tdiv 1000 < 4294967296)
    (hd1 : 0 ≤ sid) (hd2 : sid < 16384)
    (hstart : 0 ≤ start) (hendv : endv ≤ 256) :
    ∀ a ∈ idsFor (ms.tdiv 1000) (ms.tmod 1000) sid start endv,
      GoodID sid a ∧ decodeMs a = ms := by
  intro a ha
  unfold idsFor at ha
  rw [List.mem_map] at ha
  obtain ⟨k, hk, rfl⟩ := ha
  rw [List.mem_range] at hk
  obtain ⟨hdiv, hmod⟩ := tdiv_emod_1000 ms (by omega)
  have hi1 : 0 ≤ start + (k : Int) := by positivity
  have hi2 : start + (k : Int) < 256 := by omega
  have hs1 : 0 ≤ ms.tdiv 1000 := by rw [hdiv]; positivity
  have hm1 : 0 ≤ ms.tmod 1000 := by rw [hmod]; omega
  have hm2 : ms.tmod 1000 < 1000 := by rw [hmod]; omega
  obtain ⟨e1, e2, e3, e4⟩ := decode_mkID (ms.tdiv 1000) (ms.tmod 1000) (start + (k : Int)) sid
    hs1 hsec hm1 (by omega) hi1 hi2 hd1 hd2
  have hms' : decodeMs (mkID (ms.tdiv 1000) (ms.tmod 1000) (start + (k : Int)) sid) = ms := by
    unfold decodeMs
    rw [e1, e2, hdiv, hmod]
    omega
  exact ⟨⟨ms, start + (k : Int), hms, hi1, by omega, rfl, e1, e2, by omega, by omega, e3, e4, hms'⟩, hms'⟩

theorem idsFor_nodup (ms sid start endv : Int)
    (hms : 1 ≤ ms) (hsec : ms.tdiv 1000 < 4294967296)
    (hd1 : 0 ≤ sid) (hd2 : sid < 16384)
    (hstart : 0 ≤ start) (hendv : endv ≤ 256) :
    (idsFor (ms.tdiv 1000) (ms.tmod 1000) sid start endv).Nodup := by
  apply List.Nodup.of_map decodeCounter
  unfold idsFor
  rw [List.map_map]
  have hcongr : (List.range (endv - start).toNat).map
        (decodeCounter ∘ fun k : Nat => mkID (ms.tdiv 1000) (ms.tmod 1000) (start + (k : Int)) sid) =
      (List.range (endv - start).toNat).map (fun k : Nat => start + (k : Int)) := by
    apply List.map_congr_left
    intro k hk
    rw [List.mem_range] at hk
    obtain ⟨hdiv, hmod⟩ := tdiv_emod_1000 ms (by omega)
    have hs1 : 0 ≤ ms.tdiv 1000 := by rw [hdiv]; positivity
    have hm1 : 0 ≤ ms.tmod 1000 := by rw [hmod]; omega
    exact (decode_mkID (ms.tdiv 1000) (ms.tmod 1000) (start + (k : Int)) sid
      hs1 hsec hm1 (by omega) (by positivity) (by omega) hd1 hd2).2.2.1
  rw [hcongr]
  exact (List.nodup_range _).map fun a b h => by omega

/-- Length/positivity bookkeeping for one successful bucket attempt (no clock
hypothesis needed). -/
theorem genStep_len {σ : Type} (env : Env σ) (g : Generator) (sid leftNum lastMs : Int)
    (ids : List Int) (s : σ) (l' m' : Int) (ids' : List Int) (s' : σ)
    (hstep : genStep env g sid leftNum lastMs ids s = .ok (l', m', ids', s'))
    (hleft : 0 < leftNum) :
    (ids'.length : Int) + l' = (ids.length : Int) + leftNum ∧ 0 ≤ l' := by
  obtain ⟨hm, counter, s3, hincr, hst, hcase⟩ := genStep_inv env g sid leftNum lastMs ids s l' m' ids' s' hstep
  rcases hcase with ⟨h1, rfl, rfl⟩ | ⟨h1, h2, h3, h4, hl, hi⟩
  · omega
  · subst hl hi
    rw [List.length_append, idsFor_length]
    unfold maxCounter at h1 ⊢
    by_cases hc : counter > (255 : Int)
    · simp only [if_pos hc]
      omega
    · simp only [if_neg hc]
      omega

/-- Full description of one successful bucket attempt under a monotone
clock: the attempt's millisecond strictly exceeds `lastMs`, the remaining
demand stays nonnegative and balances against the emitted identifiers, and
all newly appended identifiers are well-formed, pairwise distinct, and stamp
the attempt's millisecond. -/
theorem genStep_good {σ : Type} (env : Env σ) (hmono : env.Monotone) (g : Generator)
    (sid leftNum lastMs : Int) (ids : List Int) (s : σ)
    (l' m' : Int) (ids' : List Int) (s' : σ)
    (hstep : genStep env g sid leftNum lastMs ids s = .ok (l', m', ids', s'))
    (hleft : 0 < leftNum) (hlast : 0 ≤ lastMs) :
    lastMs < m' ∧ 0 ≤ l' ∧ (ids'.length : Int) + l' = (ids.length : Int) + leftNum ∧
    ∃ new, ids' = ids ++ new ∧ new.Nodup ∧ ∀ a ∈ new, GoodID sid a ∧ decodeMs a = m' := by
  obtain ⟨hlen, hl'⟩ := genStep_len env g sid leftNum lastMs ids s l' m' ids' s' hstep hleft
  obtain ⟨hm, counter, s3, hincr, hst, hcase⟩ := genStep_inv env g sid leftNum lastMs ids s l' m' ids' s' hstep
  have hlt : lastMs < m' := hm ▸ stepMs_lt env hmono lastMs s
  refine ⟨hlt, hl', hlen, ?_⟩
  rcases hcase with ⟨h1, rfl, rfl⟩ | ⟨h1, h2, h3, h4, hl, hi⟩
  · exact ⟨[], by simp, List.nodup_nil, by simp⟩
  · subst hi
    rw [← hm] at h3 ⊢
    have hsec : m'.tdiv 1000 < 4294967296 := ((fits32_iff _).mp h3).2
    obtain ⟨hd1, hd2⟩ := (fits14_iff _).mp h4
    have hms1 : 1 ≤ m' := by omega
    have hstart : 0 ≤ counter - leftNum := by omega
    have hendv : (if counter > maxCounter then maxCounter + 1 else counter) ≤ 256 := by
      unfold maxCounter at h1 ⊢
      split <;> omega
    exact ⟨idsFor (m'.tdiv 1000) (m'.tmod 1000) sid (counter - leftNum) _, rfl,
      idsFor_nodup m' sid _ _ hms1 hsec hd1 hd2 hstart hendv,
      idsFor_good m' sid _ _ hms1 hsec hd1 hd2 hstart hendv⟩

/-- Summing `genStep_len` over the loop: the identifier count plus the
remaining demand is preserved, and the remaining demand stays
nonnegative. -/
theorem genLoop_len {σ : Type} (env : Env σ) (g : Generator) (sid : Int) :
    ∀ (fuel : Nat) (leftNum lastMs : Int) (ids : List Int) (s : σ)
      (l' m' : Int) (ids' : List Int) (s' : σ),
    genLoop env g sid fuel leftNum lastMs ids s = .ok (l', m', ids', s') →
    0 ≤ leftNum →
    (ids'.length : Int) + l' = (ids.length : Int) + leftNum ∧ 0 ≤ l' := by
  intro fuel
  induction fuel with
  | zero =>
    intro leftNum lastMs ids s l' m' ids' s' h hpos
    simp only [genLoop, Except.ok.injEq, Prod.mk.injEq] at h
    obtain ⟨rfl, -, rfl, -⟩ := h
    omega
  | succ fuel ih =>
    intro leftNum lastMs ids s l' m' ids' s' h hpos
    simp only [genLoop] at h
    by_cases hl : leftNum > 0
    · rw [if_pos hl] at h
      cases hstep : genStep env g sid leftNum lastMs ids s with
      | error e => rw [hstep] at h; exact absurd h (by simp)
      | ok q =>
        obtain ⟨l1, m1, ids1, s1⟩ := q
        rw [hstep] at h
        simp only at h
        obtain ⟨hsum, hpos1⟩ := genStep_len env g sid leftNum lastMs ids s l1 m1 ids1 s1 hstep hl
        obtain ⟨hsum2, hpos2⟩ := ih l1 m1 ids1 s1 l' m' ids' s' h hpos1
        omega
    · rw [if_neg hl] at h
      simp only [Except.ok.injEq, Prod.mk.injEq] at h
      obtain ⟨rfl, -, rfl, -⟩ := h
      omega

/-- The main loop invariant under a monotone clock: starting from a
duplicate-free accumulator whose identifiers are all well-formed and stamped
no later than `lastMs ≥ 0`, a successful run of the remaining loop
iterations preserves all of that, keeps the count balanced against the
remaining demand, and never moves `lastMs` backwards. -/
theorem genLoop_good {σ : Type} (env : Env σ) (hmono : env.Monotone) (g : Generator) (sid : Int) :
    ∀ (fuel : Nat) (leftNum lastMs : Int) (ids : List Int) (s : σ)
      (l' m' : Int) (ids' : List Int) (s' : σ),
    genLoop env g sid fuel leftNum lastMs ids s = .ok (l', m', ids', s') →
    0 ≤ leftNum → 0 ≤ lastMs → ids.Nodup →
    (∀ a ∈ ids, GoodID sid a ∧ decodeMs a ≤ lastMs) →
    ((ids'.length : Int) + l' = (ids.length : Int) + leftNum ∧ 0 ≤ l' ∧ lastMs ≤ m' ∧
     ids'.Nodup ∧ ∀ a ∈ ids', GoodID sid a ∧ decodeMs a ≤ m') := by
  intro fuel
  induction fuel with
  | zero =>
    intro leftNum lastMs ids s l' m' ids' s' h hpos hlast hnodup hgood
    simp only [genLoop, Except.ok.injEq, Prod.mk.injEq] at h
    obtain ⟨rfl, rfl, rfl, -⟩ := h
    exact ⟨by omega, hpos, le_refl _, hnodup, hgood⟩
  | succ fuel ih =>
    intro leftNum lastMs ids s l' m' ids' s' h hpos hlast hnodup hgood
    simp only [genLoop] at h
    by_cases hl : leftNum > 0
    · rw [if_pos hl] at h
      cases hstep : genStep env g sid leftNum lastMs ids s with
      | error e => rw [hstep] at h; exact absurd h (by simp)
      | ok q =>
        obtain ⟨l1, m1, ids1, s1⟩ := q
        rw [hstep] at h
        simp only at h
        obtain ⟨hlt, hl1, hsum1, new, hids1, hnodupNew, hnew⟩ :=
          genStep_good env hmono g sid leftNum lastMs ids s l1 m1 ids1 s1 hstep hl hlast
        have hnodup1 : ids1.Nodup := by
          subst hids1
          rw [List.nodup_append]
          refine ⟨hnodup, hnodupNew, ?_⟩
          intro a ha hb
          have h1 := (hgood a ha).2
          have h2 := (hnew a hb).2
          omega
        have hgood1 : ∀ a ∈ ids1, GoodID sid a ∧ decodeMs a ≤ m1 := by
          subst hids1
          intro a ha
          rw [List.mem_append] at ha
          rcases ha with ha | ha
          · exact ⟨(hgood a ha).1, le_trans (hgood a ha).2 (le_of_lt hlt)⟩
          · exact ⟨(hnew a ha).1, le_of_eq (hnew a ha).2⟩
        obtain ⟨hsum2, hl2, hle2, hnodup2, hgood2⟩ :=
          ih l1 m1 ids1 s1 l' m' ids' s' h hl1 (by omega) hnodup1 hgood1
        refine ⟨by omega, hl2, by omega, hnodup2, hgood2⟩
    · rw [if_neg hl] at h
      simp only [Except.ok.injEq, Prod.mk.injEq] at h
      obtain ⟨rfl, rfl, rfl, -⟩ := h
      exact ⟨by omega, hpos, le_refl _, hnodup, hgood⟩

/-- Inversion of the `GenMultiIDs` wrapper on success: a server id was
picked, the loop succeeded, the final check passed, so the remaining demand
is zero and at least `counts` identifiers were produced. -/
theorem GenMultiIDs_inv {σ : Type} (env : Env σ) (g : Generator) (counts : Int) (s : σ)
    (ids : List Int) (s' : σ)
    (h : GenMultiIDs env g counts s = .ok (ids, s')) :
    ∃ sid s1 m' s2, pickServerID env g s = .ok (sid, s1) ∧
      genLoop env g sid 8 counts 0 [] s1 = .ok (0, m', ids, s2) ∧
      counts ≤ (ids.length : Int) ∧ s' = s2 := by
  unfold GenMultiIDs at h
  cases hpick : pickServerID env g s with
  | error e => rw [hpick] at h; exact absurd h (by simp)
  | ok p =>
    obtain ⟨sid, s1⟩ := p
    rw [hpick] at h
    simp only at h
    cases hloop : genLoop env g sid 8 counts 0 [] s1 with
    | error e => rw [hloop] at h; exact absurd h (by simp)
    | ok q =>
      obtain ⟨l', m', ids2, s2⟩ := q
      rw [hloop] at h
      simp only at h
      by_cases hchk : (ids2.length : Int) < counts ∨ l' ≠ 0
      · rw [if_pos hchk] at h; exact absurd h (by simp)
      · rw [if_neg hchk] at h
        simp only [Except.ok.injEq, Prod.mk.injEq] at h
        obtain ⟨rfl, rfl⟩ := h
        push_neg at hchk
        exact ⟨sid, s1, m', s2, rfl, hchk.2 ▸ hloop, hchk.1, rfl⟩

/-- Under a lawful randomness source, `pickServerID` returns an element of
the configured pool. -/
theorem pickServerID_mem {σ : Type} (env : Env σ) (hrand : env.LawfulRand)
    (g : Generator) (s : σ) (sid : Int) (s1 : σ)
    (h : pickServerID env g s = .ok (sid, s1)) : sid ∈ g.serverIDs := by
  unfold pickServerID at h
  cases hr : env.randIndex g.serverIDs.length s with
  | error e => rw [hr] at h; exact absurd h (by simp)
  | ok p =>
    obtain ⟨r, s2⟩ := p
    rw [hr] at h
    simp only [Except.ok.injEq, Prod.mk.injEq] at h
    obtain ⟨rfl, rfl⟩ := h
    have hrlt : r < g.serverIDs.length := hrand _ _ _ _ hr
    rw [List.getD_eq_getElem g.serverIDs 0 hrlt]
    exact List.getElem_mem hrlt

/-- The simulated environment's frozen clock is monotone. -/
theorem simEnv_monotone : simEnv.Monotone := fun _s => le_refl _

/-- The simulated environment's random index is always in range. -/
theorem simEnv_lawful : simEnv.LawfulRand := by
  intro n s r s' h
  simp only [simEnv] at h
  by_cases hn : n = 0
  · rw [if_pos hn] at h
    exact absurd h (by simp)
  · rw [if_neg hn] at h
    simp only [Except.ok.injEq, Prod.mk.injEq] at h
    obtain ⟨hr, -⟩ := h
    omega

/-- **C1**: for every successful call `GenMultiIDs(ctx, n)` with `n ≥ 1`
(under a monotone wall clock), the returned sequence has exactly `n`
elements and all returned identifiers are pairwise distinct. -/
theorem GenMultiIDs_count_nodup {σ : Type} (env : Env σ) (g : Generator)
    (counts : Int) (s : σ) (ids : List Int) (s' : σ)
    (hmono : env.Monotone) (hc : 1 ≤ counts)
    (h : GenMultiIDs env g counts s = .ok (ids, s')) :
    (ids.length : Int) = counts ∧ ids.Nodup := by
  obtain ⟨sid, s1, m', s2, hpick, hloop, hlen, heq⟩ := GenMultiIDs_inv env g counts s ids s' h
  obtain ⟨hsum, -, -, hnodup, -⟩ := genLoop_good env hmono g sid 8 counts 0 [] s1 0 m' ids s2
    hloop (by omega) (le_refl 0) List.nodup_nil (by simp)
  exact ⟨by simpa using hsum, hnodup⟩

theorem GenMultiIDs_count_nodup_witness :
    (([515899399] : List Int).length : Int) = 1 ∧ ([515899399] : List Int).Nodup :=
  GenMultiIDs_count_nodup simEnv gTest 1 ⟨123, []⟩ [515899399]
    ⟨123, [("id_generator::7:123", 1)]⟩ simEnv_monotone (by omega) rfl

/-- When no identifiers are demanded, the loop does nothing. -/
theorem genLoop_nonpos {σ : Type} (env : Env σ) (g : Generator) (sid : Int)
    (fuel : Nat) (leftNum lastMs : Int) (ids : List Int) (s : σ)
    (hl : leftNum ≤ 0) :
    genLoop env g sid fuel leftNum lastMs ids s = .ok (leftNum, lastMs, ids, s) := by
  cases fuel with
  | zero => rfl
  | succ fuel => simp only [genLoop, if_neg (by omega : ¬ leftNum > 0)]

/-- **C2**: every identifier emitted by a successful `GenMultiIDs` call
(monotone clock, in-range randomness) equals the Go packing expression
`(seconds << 32) + (millis << 22) + (i << 14) + serverId` for its bucket's
millisecond `ms`, with `seconds = ms / 1000` and `millis = ms mod 1000`, and
extracting the four bit fields recovers `seconds`, `millis ∈ [0, 999]`, a
counter in `[0, 255]`, and a server id belonging to the configured pool. -/
theorem GenMultiIDs_id_fields {σ : Type} (env : Env σ) (g : Generator)
    (counts : Int) (s : σ) (ids : List Int) (s' : σ)
    (hmono : env.Monotone) (hrand : env.LawfulRand)
    (h : GenMultiIDs env g counts s = .ok (ids, s')) :
    ∀ a ∈ ids, ∃ sid ms i : Int, sid ∈ g.serverIDs ∧ 1 ≤ ms ∧ 0 ≤ i ∧ i ≤ 255 ∧
      a = mkID (ms.tdiv 1000) (ms.tmod 1000) i sid ∧
      decodeSeconds a = ms.tdiv 1000 ∧
      decodeMillis a = ms.tmod 1000 ∧ 0 ≤ decodeMillis a ∧ decodeMillis a ≤ 999 ∧
      decodeCounter a = i ∧ decodeServerID a = sid := by
  intro a ha
  obtain ⟨sid, s1, m', s2, hpick, hloop, -, -⟩ := GenMultiIDs_inv env g counts s ids s' h
  have hc0 : 0 ≤ counts := by
    by_contra hneg
    rw [genLoop_nonpos env g sid 8 counts 0 [] s1 (by omega)] at hloop
    simp only [Except.ok.injEq, Prod.mk.injEq] at hloop
    omega
  obtain ⟨-, -, -, -, hgood⟩ := genLoop_good env hmono g sid 8 counts 0 [] s1 0 m' ids s2
    hloop hc0 (le_refl 0) List.nodup_nil (by simp)
  obtain ⟨ms, i, h1, h2, h3, h4, h5, h6, h7, h8, h9, h10, -⟩ := (hgood a ha).1
  exact ⟨sid, ms, i, pickServerID_mem env hrand g s sid s1 hpick, h1, h2, h3, h4, h5, h6, h7, h8, h9, h10⟩

theorem GenMultiIDs_id_fields_witness :
    ∃ sid ms i : Int, sid ∈ gTest.serverIDs ∧ 1 ≤ ms ∧ 0 ≤ i ∧ i ≤ 255 ∧
      (515899399 : Int) = mkID (ms.tdiv 1000) (ms.tmod 1000) i sid ∧
      decodeSeconds 515899399 = ms.tdiv 1000 ∧
      decodeMillis 515899399 = ms.tmod 1000 ∧ 0 ≤ decodeMillis 515899399 ∧
      decodeMillis 515899399 ≤ 999 ∧
      decodeCounter 515899399 = i ∧ decodeServerID 515899399 = sid :=
  GenMultiIDs_id_fields simEnv gTest 1 ⟨123, []⟩ [515899399]
    ⟨123, [("id_generator::7:123", 1)]⟩ simEnv_monotone simEnv_lawful rfl
    515899399 (by simp)

/-- **C7**: `GenID` refines `GenMultiIDs` with `count = 1`: on success it
returns exactly the single (first) identifier of `GenMultiIDs(ctx, 1)` and
the same final state, and it returns an error precisely when
`GenMultiIDs(ctx, 1)` does (wrapping the inner error). -/
theorem GenID_refines_GenMultiIDs {σ : Type} (env : Env σ) (g : Generator) (s : σ) :
    (∀ ids s', GenMultiIDs env g 1 s = .ok (ids, s') →
        (ids.length : Int) = 1 ∧ GenID env g s = .ok (ids.headD 0, s')) ∧
    (∀ e, GenMultiIDs env g 1 s = .error e ↔ GenID env g s = .error (.genIDFailed e)) := by
  constructor
  · intro ids s' h
    refine ⟨?_, ?_⟩
    · obtain ⟨sid, s1, m', s2, -, hloop, hlen, -⟩ := GenMultiIDs_inv env g 1 s ids s' h
      obtain ⟨hsum, hpos⟩ := genLoop_len env g sid 8 1 0 [] s1 0 m' ids s2 hloop (by omega)
      simp only [List.length_nil] at hsum
      omega
    · unfold GenID
      rw [h]
  · intro e
    constructor
    · intro h
      unfold GenID
      rw [h]
    · intro h
      unfold GenID at h
      cases hm : GenMultiIDs env g 1 s with
      | error e2 =>
        rw [hm] at h
        simp only [Except.error.injEq, GenErr.genIDFailed.injEq] at h
        rw [h]
      | ok p =>
        obtain ⟨ids, s'⟩ := p
        rw [hm] at h
        exact absurd h (by simp)

theorem GenID_refines_GenMultiIDs_witness :
    (([515899399] : List Int).length : Int) = 1 ∧
      GenID simEnv gTest ⟨123, []⟩ =
        .ok (([515899399] : List Int).headD 0, ⟨123, [("id_generator::7:123", 1)]⟩) :=
  (GenID_refines_GenMultiIDs simEnv gTest ⟨123, []⟩).1 [515899399]
    ⟨123, [("id_generator::7:123", 1)]⟩ rfl

/-- An environment whose counter store answers every increment with total 0,
as a recycled/reset Redis counter would. -/
def recycleEnv : Env SimSt :=
  { simEnv with incrBy := fun _ _ s => .ok (0, s) }

/-- An environment whose counter store reports a bucket already saturated by
other allocators: every increment returns `300 + delta`. -/
def satEnv : Env SimSt :=
  { simEnv with incrBy := fun _ d s => .ok (300 + d, s) }

/-- **C3**: if, at any bucket attempt of the loop (any remaining fuel, any
accumulated identifiers), the store's increment returns a total strictly
smaller than the requested delta `leftNum`, the loop aborts right there with
the recycling error naming the attempt's millisecond — returning no
identifiers, not even previously accumulated ones — and `GenMultiIDs`
surfaces exactly that error. -/
theorem genLoop_recycling_aborts :
    (∀ (σ : Type) (env : Env σ) (g : Generator) (sid : Int) (fuel : Nat)
       (leftNum lastMs : Int) (ids : List Int) (s : σ) (counter : Int) (s3 : σ),
       0 < leftNum →
       env.incrBy (counterKey g.namespace_ sid (stepMs env lastMs s).1) leftNum
           (stepMs env lastMs s).2 = .ok (counter, s3) →
       counter < leftNum →
       genLoop env g sid (fuel + 1) leftNum lastMs ids s =
         .error (.recycling (stepMs env lastMs s).1)) ∧
    (∀ (σ : Type) (env : Env σ) (g : Generator) (counts : Int) (s : σ)
       (sid : Int) (s1 : σ) (e : GenErr),
       pickServerID env g s = .ok (sid, s1) →
       genLoop env g sid 8 counts 0 [] s1 = .error e →
       GenMultiIDs env g counts s = .error e) := by
  constructor
  · intro σ env g sid fuel leftNum lastMs ids s counter s3 hpos hincr hrec
    have hstep : genStep env g sid leftNum lastMs ids s =
        .error (.recycling (stepMs env lastMs s).1) := by
      simp only [genStep]
      rw [hincr]
      simp only
      rw [if_neg (by unfold maxCounter; omega : ¬ counter - leftNum > maxCounter)]
      rw [if_pos hrec]
    simp only [genLoop, if_pos hpos]
    rw [hstep]
  · intro σ env g counts s sid s1 e hpick hloop
    unfold GenMultiIDs
    rw [hpick]
    simp only
    rw [hloop]

theorem genLoop_recycling_aborts_witness :
    genLoop recycleEnv gTest 7 8 2 0 [515899399] ⟨123, []⟩ = .error (.recycling 123) ∧
      GenMultiIDs recycleEnv gTest 2 ⟨123, []⟩ = .error (.recycling 123) :=
  ⟨genLoop_recycling_aborts.1 SimSt recycleEnv gTest 7 7 2 0 [515899399] ⟨123, []⟩ 0
      ⟨123, []⟩ (by omega) rfl (by omega),
   genLoop_recycling_aborts.2 SimSt recycleEnv gTest 2 ⟨123, []⟩ 7 ⟨123, []⟩
      (.recycling 123) rfl rfl⟩

/-- **C5**: a bucket attempt whose store total makes `start > 255` yields no
identifiers and leaves `leftNum` unchanged (only `lastMs` advances to the
attempt's millisecond); under a monotone clock every attempt's millisecond
strictly exceeds the previous `lastMs`, and when the clock has not advanced
past `lastMs` the millisecond is forced to exactly `lastMs + 1`. -/
theorem genStep_saturated_ms_advance :
    (∀ (σ : Type) (env : Env σ) (g : Generator) (sid leftNum lastMs : Int)
       (ids : List Int) (s : σ) (counter : Int) (s3 : σ),
       env.incrBy (counterKey g.namespace_ sid (stepMs env lastMs s).1) leftNum
           (stepMs env lastMs s).2 = .ok (counter, s3) →
       counter - leftNum > maxCounter →
       genStep env g sid leftNum lastMs ids s =
         .ok (leftNum, (stepMs env lastMs s).1, ids, s3)) ∧
    (∀ (σ : Type) (env : Env σ), env.Monotone →
       ∀ (lastMs : Int) (s : σ), lastMs < (stepMs env lastMs s).1) ∧
    (∀ (σ : Type) (env : Env σ) (lastMs : Int) (s : σ),
       (env.timeMS s).1 ≤ lastMs → (stepMs env lastMs s).1 = lastMs + 1) := by
  refine ⟨?_, fun σ env hmono lastMs s => stepMs_lt env hmono lastMs s,
    fun σ env lastMs s h => stepMs_forced env lastMs s h⟩
  intro σ env g sid leftNum lastMs ids s counter s3 hincr hsat
  simp only [genStep]
  rw [hincr]
  simp only
  rw [if_neg (by unfold maxCounter at hsat; omega : ¬ counter - leftNum = 0)]
  rw [if_pos hsat]

theorem genStep_saturated_ms_advance_witness :
    genStep satEnv gTest 7 1 0 [] ⟨123, []⟩ = .ok (1, 123, [], ⟨123, []⟩) ∧
      (0 : Int) < (stepMs simEnv 0 ⟨123, []⟩).1 ∧
      (stepMs simEnv 200 ⟨123, []⟩).1 = 201 :=
  ⟨genStep_saturated_ms_advance.1 SimSt satEnv gTest 7 1 0 [] ⟨123, []⟩ 301 ⟨123, []⟩
      rfl (by decide),
   genStep_saturated_ms_advance.2.1 SimSt simEnv simEnv_monotone 0 ⟨123, []⟩,
   genStep_saturated_ms_advance.2.2 SimSt simEnv 200 ⟨123, []⟩ (by decide)⟩

theorem stepMs_countIncr {σ : Type} (env : Env σ) (lastMs : Int) (s : σ) (k : Nat) :
    stepMs (countIncr env) lastMs (s, k) =
      ((stepMs env lastMs s).1, ((stepMs env lastMs s).2, k)) := rfl

/-- A successful bucket attempt over the counting environment performs
exactly one store increment. -/
theorem genStep_countIncr {σ : Type} (env : Env σ) (g : Generator)
    (sid leftNum lastMs : Int) (ids : List Int) (s : σ) (k : Nat)
    (l' m' : Int) (ids' : List Int) (sp' : σ × Nat)
    (h : genStep (countIncr env) g sid leftNum lastMs ids (s, k) = .ok (l', m', ids', sp')) :
    sp'.2 = k + 1 := by
  obtain ⟨hm, counter, s3, hincr, hst, -⟩ :=
    genStep_inv (countIncr env) g sid leftNum lastMs ids (s, k) l' m' ids' sp' h
  rw [stepMs_countIncr] at hincr
  have h3 : s3.2 = k + 1 := by
    simp only [countIncr] at hincr
    cases hb : env.incrBy (counterKey g.namespace_ sid (stepMs env lastMs s).1) leftNum
        (stepMs env lastMs s).2 with
    | error e => rw [hb] at hincr; exact absurd hincr (by simp)
    | ok q =>
      obtain ⟨c, sb⟩ := q
      rw [hb] at hincr
      simp only [Except.ok.injEq, Prod.mk.injEq] at hincr
      obtain ⟨-, hs3⟩ := hincr
      rw [← hs3]
  rw [hst]
  split
  · exact h3
  · exact h3

/-- A successful run of the loop over the counting environment performs at
most `fuel` store increments. -/
theorem genLoop_countIncr {σ : Type} (env : Env σ) (g : Generator) (sid : Int) :
    ∀ (fuel : Nat) (leftNum lastMs : Int) (ids : List Int) (s : σ) (k : Nat)
      (l' m' : Int) (ids' : List Int) (sp' : σ × Nat),
    genLoop (countIncr env) g sid fuel leftNum lastMs ids (s, k) = .ok (l', m', ids', sp') →
    sp'.2 ≤ k + fuel := by
  intro fuel
  induction fuel with
  | zero =>
    intro leftNum lastMs ids s k l' m' ids' sp' h
    simp only [genLoop, Except.ok.injEq, Prod.mk.injEq] at h
    obtain ⟨-, -, -, rfl⟩ := h
    exact Nat.le_add_right k 0
  | succ fuel ih =>
    intro leftNum lastMs ids s k l' m' ids' sp' h
    simp only [genLoop] at h
    by_cases hl : leftNum > 0
    · rw [if_pos hl] at h
      cases hstep : genStep (countIncr env) g sid leftNum lastMs ids (s, k) with
      | error e => rw [hstep] at h; exact absurd h (by simp)
      | ok q =>
        obtain ⟨l1, m1, ids1, sp1⟩ := q
        rw [hstep] at h
        simp only at h
        have hk1 : sp1.2 = k + 1 :=
          genStep_countIncr env g sid leftNum lastMs ids s k l1 m1 ids1 sp1 hstep
        obtain ⟨s1, k1⟩ := sp1
        have := ih l1 m1 ids1 s1 k1 l' m' ids' sp' h
        simp only at hk1
        omega
    · rw [if_neg hl] at h
      simp only [Except.ok.injEq, Prod.mk.injEq] at h
      obtain ⟨-, -, -, rfl⟩ := h
      exact Nat.le_add_right k (fuel + 1)

theorem pickServerID_countIncr {σ : Type} (env : Env σ) (g : Generator) (s : σ) (k : Nat)
    (sid : Int) (sp : σ × Nat)
    (h : pickServerID (countIncr env) g (s, k) = .ok (sid, sp)) : sp.2 = k := by
  unfold pickServerID at h
  simp only [countIncr] at h
  cases hr : env.randIndex g.serverIDs.length s with
  | error e => rw [hr] at h; exact absurd h (by simp)
  | ok q =>
    obtain ⟨r, sb⟩ := q
    rw [hr] at h
    simp only [Except.ok.injEq, Prod.mk.injEq] at h
    obtain ⟨-, hs⟩ := h
    rw [← hs]

/-- **C4**: instrumenting the store shows a call performs at most 8
increments (bucket attempts); and whenever the loop finishes with fewer than
`counts` identifiers or nonzero remaining demand, `GenMultiIDs` fails with
the insufficient-IDs error carrying the namespace, the requested count, the
produced count, and the last millisecond tried. -/
theorem GenMultiIDs_bounded_attempts :
    (∀ (σ : Type) (env : Env σ) (g : Generator) (counts : Int) (s : σ)
       (ids : List Int) (s' : σ) (k : Nat),
       GenMultiIDs (countIncr env) g counts (s, 0) = .ok (ids, (s', k)) → k ≤ 8) ∧
    (∀ (σ : Type) (env : Env σ) (g : Generator) (counts : Int) (s : σ)
       (sid : Int) (s1 : σ) (l' m' : Int) (ids' : List Int) (s2 : σ),
       pickServerID env g s = .ok (sid, s1) →
       genLoop env g sid 8 counts 0 [] s1 = .ok (l', m', ids', s2) →
       ((ids'.length : Int) < counts ∨ l' ≠ 0) →
       GenMultiIDs env g counts s = .error (.insufficient g.namespace_ counts ids'.length m')) := by
  constructor
  · intro σ env g counts s ids s' k h
    unfold GenMultiIDs at h
    cases hpick : pickServerID (countIncr env) g (s, 0) with
    | error e => rw [hpick] at h; exact absurd h (by simp)
    | ok p =>
      obtain ⟨sid, sp1⟩ := p
      have hk0 : sp1.2 = 0 := pickServerID_countIncr env g s 0 sid sp1 hpick
      obtain ⟨s1, k1⟩ := sp1
      simp only at hk0
      subst hk0
      rw [hpick] at h
      simp only at h
      cases hloop : genLoop (countIncr env) g sid 8 counts 0 [] (s1, 0) with
      | error e => rw [hloop] at h; exact absurd h (by simp)
      | ok q =>
        obtain ⟨l2, m2, ids2, sp2⟩ := q
        rw [hloop] at h
        simp only at h
        have hcnt : sp2.2 ≤ 0 + 8 :=
          genLoop_countIncr env g sid 8 counts 0 [] s1 0 l2 m2 ids2 sp2 hloop
        by_cases hchk : (ids2.length : Int) < counts ∨ l2 ≠ 0
        · rw [if_pos hchk] at h; exact absurd h (by simp)
        · rw [if_neg hchk] at h
          simp only [Except.ok.injEq, Prod.mk.injEq] at h
          obtain ⟨-, hs⟩ := h
          rw [hs] at hcnt
          simpa using hcnt
  · intro σ env g counts s sid s1 l' m' ids' s2 hpick hloop hchk
    unfold GenMultiIDs
    rw [hpick]
    simp only
    rw [hloop]
    simp only
    rw [if_pos hchk]

theorem GenMultiIDs_bounded_attempts_witness :
    (1 : Nat) ≤ 8 ∧
      GenMultiIDs simEnv gTest (-1) ⟨123, []⟩ = .error (.insufficient "" (-1) 0 0) :=
  ⟨GenMultiIDs_bounded_attempts.1 SimSt simEnv gTest 1 ⟨123, []⟩ [515899399]
      ⟨123, [("id_generator::7:123", 1)]⟩ 1 rfl,
   GenMultiIDs_bounded_attempts.2 SimSt simEnv gTest (-1) ⟨123, []⟩ 7 ⟨123, []⟩ (-1) 0 []
      ⟨123, []⟩ rfl rfl (by decide)⟩

theorem failIncr_randIndex {σ : Type} (env : Env σ) :
    (failIncr env).randIndex = env.randIndex := rfl

/-- **C9, counterexample**: at `counts = -2` the call does not return the
insufficient-IDs error the claim asserts: the negative-capacity
`ids := make([]int64, 0, counts)` at Go line 53 panics before any
counter-store or randomness call, so the run crashes (`none`). -/
theorem GenMultiIDsGo_negative_counts_cex :
    GenMultiIDsGo simEnv gTest (-2) ⟨123, []⟩ = none ∧
      GenMultiIDsGo simEnv gTest (-2) ⟨123, []⟩ ≠
        some (.error (.insufficient "" (-2) 0 0)) := by
  refine ⟨rfl, ?_⟩
  intro h
  rw [show GenMultiIDsGo simEnv gTest (-2) ⟨123, []⟩ = none from rfl] at h
  exact absurd h (by simp)

/-- **C9, amended**: `GenMultiIDs(ctx, 0)` performs no counter-store call —
here the store rejects every increment, so any store call would surface as a
`storeFailed` error — and returns an empty sequence with no error and no
panic, provided only that the random pick succeeds; for every `counts < 0`
the negative-capacity `make` at line 53 panics before the server-id pick,
the loop and the final check, so the call crashes without any counter-store
call instead of returning the insufficient-IDs error. -/
theorem GenMultiIDsGo_nonpositive_counts :
    (∀ (σ : Type) (env : Env σ) (g : Generator) (s : σ) (r : Nat) (s' : σ),
       env.randIndex g.serverIDs.length s = .ok (r, s') →
       GenMultiIDsGo (failIncr env) g 0 s = some (.ok ([], s'))) ∧
    (∀ (σ : Type) (env : Env σ) (g : Generator) (counts : Int) (s : σ),
       counts < 0 → GenMultiIDsGo env g counts s = none) := by
  constructor
  · intro σ env g s r s' hr
    unfold GenMultiIDsGo
    rw [if_neg (by omega : ¬ (0 : Int) < 0)]
    congr 1
    unfold GenMultiIDs pickServerID
    rw [failIncr_randIndex, hr]
    simp only
    rw [genLoop_nonpos (failIncr env) g (g.serverIDs.getD r 0) 8 0 0 [] s' (le_refl 0)]
    simp
  · intro σ env g counts s hneg
    unfold GenMultiIDsGo
    rw [if_pos hneg]

theorem GenMultiIDsGo_nonpositive_counts_witness :
    GenMultiIDsGo (failIncr simEnv) gTest 0 ⟨123, []⟩ = some (.ok ([], ⟨123, []⟩)) ∧
      GenMultiIDsGo simEnv gTest (-2) ⟨123, []⟩ = none :=
  ⟨GenMultiIDsGo_nonpositive_counts.1 SimSt simEnv gTest ⟨123, []⟩ 0 ⟨123, []⟩ rfl,
   GenMultiIDsGo_nonpositive_counts.2 SimSt simEnv gTest (-2) ⟨123, []⟩ (by omega)⟩

/-- **C10**: the 32-bit guard accepts any `seconds` up to `2^32 - 1`
(`4294967295`); whenever `seconds ≥ 2^31` (`2147483648`) the packed
expression wraps past the `int64` sign bit, so the identifier is negative;
a concrete run of `GenMultiIDs` at epoch-millisecond `2^31 * 1000`
successfully returns a negative identifier; and signed comparison inverts
creation order across the boundary: the identifier packed for the earlier
millisecond `2147483647999` is greater than the one packed for the later
millisecond `2147483648000`. -/
theorem GenMultiIDs_negative_ids :
    (fits32 4294967295 = true ∧ fits32 4294967296 = false) ∧
    (∀ seconds millis i sid : Int,
       2147483648 ≤ seconds → seconds < 4294967296 →
       0 ≤ millis → millis ≤ 999 → 0 ≤ i → i ≤ 255 → 0 ≤ sid → sid ≤ 16383 →
       mkID seconds millis i sid < 0) ∧
    (GenMultiIDs simEnv gTest 1 ⟨2147483648000, []⟩ =
       .ok ([-9223372036854775801],
            ⟨2147483648000, [("id_generator::7:2147483648000", 1)]⟩) ∧
     (-9223372036854775801 : Int) < 0) ∧
    (mkID 2147483647 999 0 7 > 0 ∧ mkID 2147483648 0 0 7 < 0 ∧
     mkID 2147483648 0 0 7 < mkID 2147483647 999 0 7) := by
  refine ⟨by decide, ?_, ⟨rfl, by decide⟩, by decide⟩
  intro seconds millis i sid h1 h2 h3 h4 h5 h6 h7 h8
  unfold mkID toInt64
  omega

theorem GenMultiIDs_negative_ids_witness : mkID 2147483648 500 3 7 < 0 :=
  GenMultiIDs_negative_ids.2.1 2147483648 500 3 7 (by decide) (by decide) (by decide)
    (by decide) (by decide) (by decide) (by decide) (by decide)

/-- **C8, counterexample**: the bucket key the generator derives is not the
spec's `"<namespace>:<serverId>:<epochMillis>"` — at namespace `"ns"`,
server id `1` and millisecond `2` the code produces `"id_generator:ns:1:2"`,
not `"ns:1:2"`. -/
theorem counterKey_spec_cex : counterKey "ns" 1 2 ≠ specCounterKey "ns" 1 2 := by
  decide

/-- **C8, amended**: the bucket key sent to the counter store is the literal
prefix `"id_generator:"` followed by the three fields namespace, serverId
and epochMillis joined by colons. -/
theorem counterKey_prefixed (space : String) (sid ms : Int) :
    counterKey space sid ms = "id_generator:" ++ specCounterKey space sid ms := by
  unfold counterKey specCounterKey
  simp [String.append_assoc]

/-- Forward evaluation of one emitting bucket attempt: when the increment
succeeds, the bucket is not saturated, the total covers the request, and the
bit-width guards pass, `genStep` emits the counter range
`[counter - leftNum, endv)`. -/
theorem genStep_emit {σ : Type} (env : Env σ) (g : Generator) (sid leftNum lastMs : Int)
    (ids : List Int) (s : σ) (counter : Int) (s3 : σ)
    (hincr : env.incrBy (counterKey g.namespace_ sid (stepMs env lastMs s).1) leftNum
        (stepMs env lastMs s).2 = .ok (counter, s3))
    (hstart : counter - leftNum ≤ maxCounter)
    (hge : leftNum ≤ counter)
    (hf32 : fits32 ((stepMs env lastMs s).1.tdiv 1000) = true)
    (hf14 : fits14 sid = true) :
    genStep env g sid leftNum lastMs ids s = .ok
      ((if counter > maxCounter then counter - maxCounter - 1 else 0),
       (stepMs env lastMs s).1,
       ids ++ idsFor ((stepMs env lastMs s).1.tdiv 1000) ((stepMs env lastMs s).1.tmod 1000)
         sid (counter - leftNum) (if counter > maxCounter then maxCounter + 1 else counter),
       (if counter - leftNum = 0 then
         env.expire (counterKey g.namespace_ sid (stepMs env lastMs s).1) s3 else s3)) := by
  simp only [genStep]
  rw [hincr]
  simp only
  rw [if_neg (by omega : ¬ counter - leftNum > maxCounter)]
  rw [if_neg (by omega : ¬ counter < leftNum)]
  rw [if_neg (by rw [hf32]; intro h; exact absurd h (by simp))]
  rw [if_neg (by rw [hf14]; intro h; exact absurd h (by simp))]


theorem singleBucket_counters (c T n : Int) (rest : List (String × Int))
    (h1 : 1 ≤ c) (h2 : c ≤ 4294967295999) (h3 : 0 ≤ T) (h4 : 1 ≤ n) (h5 : T + n ≤ 256) :
    GenMultiIDs simEnv gTest n ⟨c, (counterKey "" 7 c, T) :: rest⟩ =
      .ok (idsFor (c.tdiv 1000) (c.tmod 1000) 7 T (T + n),
           ⟨c, (counterKey "" 7 c, T + n) :: (counterKey "" 7 c, T) :: rest⟩) ∧
    (idsFor (c.tdiv 1000) (c.tmod 1000) 7 T (T + n)).map decodeCounter =
      (List.range n.toNat).map (fun k : Nat => T + (k : Int)) := by
  obtain ⟨hdiv, hmod⟩ := tdiv_emod_1000 c (by omega)
  have hsec : 0 ≤ c.tdiv 1000 ∧ c.tdiv 1000 < 4294967296 := by rw [hdiv]; omega
  have hp1 : (stepMs simEnv 0 (⟨c, (counterKey "" 7 c, T) :: rest⟩ : SimSt)).1 = c := by
    simp only [stepMs, nextMs, simEnv]
    rw [if_pos (by omega : c > (0:Int))]
    rw [if_neg (by omega : ¬ c ≤ (0:Int))]
  have hp2 : (stepMs simEnv 0 (⟨c, (counterKey "" 7 c, T) :: rest⟩ : SimSt)).2 =
      (⟨c, (counterKey "" 7 c, T) :: rest⟩ : SimSt) := rfl
  have hincr : simEnv.incrBy
      (counterKey gTest.namespace_ 7
        (stepMs simEnv 0 (⟨c, (counterKey "" 7 c, T) :: rest⟩ : SimSt)).1) n
      (stepMs simEnv 0 (⟨c, (counterKey "" 7 c, T) :: rest⟩ : SimSt)).2 =
      .ok (T + n, ⟨c, (counterKey "" 7 c, T + n) :: (counterKey "" 7 c, T) :: rest⟩) := by
    rw [hp1, hp2]
    simp only [simEnv, lookupD]
    rw [if_pos (show counterKey "" 7 c = counterKey gTest.namespace_ 7 c from rfl)]
    rfl
  have hf32 : fits32 ((stepMs simEnv 0 (⟨c, (counterKey "" 7 c, T) :: rest⟩ : SimSt)).1.tdiv 1000)
      = true := by
    rw [hp1, fits32_iff]
    exact hsec
  have hstep := genStep_emit simEnv gTest 7 n 0 []
    (⟨c, (counterKey "" 7 c, T) :: rest⟩ : SimSt) (T + n)
    (⟨c, (counterKey "" 7 c, T + n) :: (counterKey "" 7 c, T) :: rest⟩ : SimSt)
    hincr (by unfold maxCounter; omega) (by omega) hf32 (by decide)
  rw [hp1] at hstep
  rw [show T + n - n = T from by omega] at hstep
  rw [show (if T + n > maxCounter then T + n - maxCounter - 1 else 0) = 0 from by
    unfold maxCounter; split <;> omega] at hstep
  rw [show (if T + n > maxCounter then maxCounter + 1 else T + n) = T + n from by
    unfold maxCounter; split <;> omega] at hstep
  rw [show (if T = 0 then
      simEnv.expire (counterKey gTest.namespace_ 7 c)
        (⟨c, (counterKey "" 7 c, T + n) :: (counterKey "" 7 c, T) :: rest⟩ : SimSt)
      else (⟨c, (counterKey "" 7 c, T + n) :: (counterKey "" 7 c, T) :: rest⟩ : SimSt)) =
      (⟨c, (counterKey "" 7 c, T + n) :: (counterKey "" 7 c, T) :: rest⟩ : SimSt) from by
    split <;> rfl] at hstep
  rw [List.nil_append] at hstep
  have hloop : genLoop simEnv gTest 7 8 n 0 [] (⟨c, (counterKey "" 7 c, T) :: rest⟩ : SimSt) =
      .ok (0, c, idsFor (c.tdiv 1000) (c.tmod 1000) 7 T (T + n),
           ⟨c, (counterKey "" 7 c, T + n) :: (counterKey "" 7 c, T) :: rest⟩) := by
    have e1 : genLoop simEnv gTest 7 8 n 0 [] (⟨c, (counterKey "" 7 c, T) :: rest⟩ : SimSt) =
        genLoop simEnv gTest 7 7 0 c (idsFor (c.tdiv 1000) (c.tmod 1000) 7 T (T + n))
          (⟨c, (counterKey "" 7 c, T + n) :: (counterKey "" 7 c, T) :: rest⟩ : SimSt) := by
      simp only [genLoop, if_pos (by omega : n > (0:Int))]
      rw [hstep]
    exact e1.trans (genLoop_nonpos simEnv gTest 7 7 0 c _ _ (le_refl 0))
  have hlen : ((idsFor (c.tdiv 1000) (c.tmod 1000) 7 T (T + n)).length : Int) = n := by
    rw [idsFor_length]
    omega
  constructor
  · simp only [GenMultiIDs]
    rw [show pickServerID simEnv gTest (⟨c, (counterKey "" 7 c, T) :: rest⟩ : SimSt) =
      .ok (7, (⟨c, (counterKey "" 7 c, T) :: rest⟩ : SimSt)) from rfl]
    simp only
    rw [hloop]
    simp only
    rw [if_neg (by rw [hlen]; omega)]
  · unfold idsFor
    rw [List.map_map]
    rw [show T + n - T = n from by omega]
    apply List.map_congr_left
    intro k hk
    rw [List.mem_range] at hk
    have hkn : (k : Int) < n := by omega
    exact (decode_mkID (c.tdiv 1000) (c.tmod 1000) (T + (k : Int)) 7 hsec.1 hsec.2
      (by rw [hmod]; omega) (by rw [hmod]; omega) (by omega) (by omega) (by omega)
      (by omega)).2.2.1

/-- **C6**: with a fresh store and the clock frozen inside one millisecond,
`GenMultiIDs(ctx, 5)` followed by `GenMultiIDs(ctx, 3)` on the same
`(serverId, millisecond)` bucket yields counter fields exactly
`[0, 1, 2, 3, 4]` and then `[5, 6, 7]` with no overlap; and in general a
single call against a bucket whose stored total is `T` issues exactly the
contiguous counter range `[T, T + n)` — so counters within one bucket are
unique and extend the contiguous range that starts at 0. -/
theorem GenMultiIDs_bucket_counters :
    (GenMultiIDs simEnv gTest 5 ⟨123, []⟩ =
        .ok ([515899399, 515915783, 515932167, 515948551, 515964935],
             ⟨123, [("id_generator::7:123", 5)]⟩) ∧
      GenMultiIDs simEnv gTest 3 ⟨123, [("id_generator::7:123", 5)]⟩ =
        .ok ([515981319, 515997703, 516014087],
             ⟨123, [("id_generator::7:123", 8), ("id_generator::7:123", 5)]⟩) ∧
      [515899399, 515915783, 515932167, 515948551, 515964935].map decodeCounter =
        [0, 1, 2, 3, 4] ∧
      [515981319, 515997703, 516014087].map decodeCounter = [5, 6, 7] ∧
      ([515899399, 515915783, 515932167, 515948551, 515964935] ++
        [515981319, 515997703, 516014087]).Nodup) ∧
    (∀ (c T n : Int) (rest : List (String × Int)),
      1 ≤ c → c ≤ 4294967295999 → 0 ≤ T → 1 ≤ n → T + n ≤ 256 →
      GenMultiIDs simEnv gTest n ⟨c, (counterKey "" 7 c, T) :: rest⟩ =
        .ok (idsFor (c.tdiv 1000) (c.tmod 1000) 7 T (T + n),
             ⟨c, (counterKey "" 7 c, T + n) :: (counterKey "" 7 c, T) :: rest⟩) ∧
      (idsFor (c.tdiv 1000) (c.tmod 1000) 7 T (T + n)).map decodeCounter =
        (List.range n.toNat).map (fun k : Nat => T + (k : Int))) :=
  ⟨⟨rfl, rfl, by decide, by decide, by decide⟩,
   fun c T n rest h1 h2 h3 h4 h5 => singleBucket_counters c T n rest h1 h2 h3 h4 h5⟩

theorem GenMultiIDs_bucket_counters_witness :
    GenMultiIDs simEnv gTest 1 ⟨123, [(counterKey "" 7 123, 0)]⟩ =
      .ok (idsFor ((123 : Int).tdiv 1000) ((123 : Int).tmod 1000) 7 0 (0 + 1),
           ⟨123, [(counterKey "" 7 123, 0 + 1), (counterKey "" 7 123, 0)]⟩) ∧
    (idsFor ((123 : Int).tdiv 1000) ((123 : Int).tmod 1000) 7 0 (0 + 1)).map decodeCounter =
      (List.range (1 : Int).toNat).map (fun k : Nat => 0 + (k : Int)) :=
  GenMultiIDs_bucket_counters.2 123 0 1 [] (by decide) (by decide) (by decide)
    (by decide) (by decide)
